import Mathlib

/-!
Shallow embedding of the `CustomGroup` scheduler of pytest-xdist
(`src/xdist/scheduler/customgroup.py`) and of the crash-budget logic of the
coordinator (`src/xdist/dsession.py`, `DSession.worker_errordown`).

Modelling conventions:
* Worker handles (`WorkerController`) are identified by natural numbers.
  The scheduler state carries, for each worker, the `shutting_down` flag
  (set by `node.shutdown()`) and a log of every `node.send_runtest_some`
  call, so that theorems can speak about which items were sent to whom.
* Python dicts are insertion-ordered association lists; `dict[k] = v`
  replaces the first binding in place or appends a new one, matching
  CPython's ordered-dict semantics.
* Item identifiers (test node ids) are lists of characters, so that
  `str.split` can be reasoned about directly.
* Fallible operations (KeyError, ValueError, IndexError, StopIteration,
  failing `assert`) return `Option`: `none` models a raised exception.
* In `schedule()` the group records are built with
  `'test_indices': existing_indices, 'pending_indices': existing_indices`:
  both keys reference one and the same list object, so deleting from
  `pending_indices` also shrinks `test_indices`.  The embedding mirrors
  this by updating both fields together in `_send_tests_group`.
-/

namespace XDist

abbrev NodeId := Nat

abbrev Ident := List Char

/-- Ordered-dict lookup: value of the first binding of key `k`. -/
def alookup {K V : Type _} [DecidableEq K] (k : K) : List (K × V) → Option V
  | [] => none
  | (k', v) :: t => if k = k' then some v else alookup k t

/-- Ordered-dict assignment `d[k] = v`: replace the first binding of `k`
in place, or append a new binding at the end. -/
def aset {K V : Type _} [DecidableEq K] (k : K) (v : V) : List (K × V) → List (K × V)
  | [] => [(k, v)]
  | (k', v') :: t => if k = k' then (k, v) :: t else (k', v') :: aset k v t

/-- Ordered-dict deletion `del d[k]` / `d.pop(k)`: drop the first binding. -/
def aerase {K V : Type _} [DecidableEq K] (k : K) : List (K × V) → List (K × V)
  | [] => []
  | (k', v') :: t => if k = k' then t else (k', v') :: aerase k t

/-- Python `lst[0:k]` where `k` may be negative (negative `k` counts from
the end, clamped at zero). -/
def pySlice {α : Type _} (l : List α) (k : Int) : List α :=
  if 0 ≤ k then l.take k.toNat else l.take (l.length - (-k).toNat)

/-- Value of a decimal digit string, `none` if empty or non-digit. -/
def parseDigits : List Char → Option Nat
  | [] => none
  | l => go l 0
where
  go : List Char → Nat → Option Nat
    | [], acc => some acc
    | c :: t, acc =>
      if c.isDigit then go t (acc * 10 + (c.toNat - '0'.toNat)) else none

/-- Python `int(s)` on the strings reachable here: an optional sign
followed by decimal digits. -/
def parseInt : List Char → Option Int
  | '-' :: t => (parseDigits t).map fun n => -(n : Int)
  | '+' :: t => (parseDigits t).map fun n => (n : Int)
  | l => (parseDigits l).map fun n => (n : Int)

/-- Python `s.split(sep)` for a one-character separator. -/
def splitOnChar (c : Char) : List Char → List (List Char)
  | [] => [[]]
  | x :: xs =>
    match splitOnChar c xs with
    | [] => [[]]
    | h :: t => if x = c then [] :: h :: t else (x :: h) :: t

/-- One group record of `dist_groups`.  In the source, `test_indices` and
`pending_indices` are the same list object (see module comment). -/
structure GroupRec where
  tests : List Ident
  group_workers : Int
  test_indices : List Nat
  pending_indices : List Nat
deriving DecidableEq, Repr

/-- The mutable state of a `CustomGroup` scheduler, together with the
observable state of the worker handles it drives (`shutdown_sent` flags
and the log of `send_runtest_some` calls). -/
structure SchedState where
  numnodes : Nat
  node2collection : List (NodeId × List Ident)
  node2pending : List (NodeId × List Nat)
  pending : List Nat
  collection : Option (List Ident)
  dist_groups : List (Ident × GroupRec)
  pending_groups : List Ident
  is_first_time : Bool
  do_resched : Bool
  shutdown_sent : List NodeId
  sent : List (NodeId × List Nat)
deriving DecidableEq, Repr

namespace SchedState

/-- `CustomGroup.__init__` for a configuration expecting `numnodes`
workers: every container empty, `is_first_time` set. -/
def init (numnodes : Nat) : SchedState :=
  { numnodes := numnodes, node2collection := [], node2pending := [],
    pending := [], collection := none, dist_groups := [], pending_groups := [],
    is_first_time := true, do_resched := false, shutdown_sent := [], sent := [] }

/-- `CustomGroup.nodes`: the keys of `node2pending`, in insertion order. -/
def nodes (s : SchedState) : List NodeId :=
  s.node2pending.map Prod.fst

/-- All in-flight indices: the concatenation of every worker's
`node2pending` list. -/
def inflight (s : SchedState) : List Nat :=
  (s.node2pending.map fun p => p.2).flatten

/-- The concatenation of the `pending_indices` of every group still
recorded in `dist_groups`. -/
def groupsPending (s : SchedState) : List Nat :=
  (s.dist_groups.map fun p => p.2.pending_indices).flatten

/-- `CustomGroup.collection_is_completed`. -/
def collection_is_completed (s : SchedState) : Bool :=
  decide (s.numnodes ≤ s.node2collection.length)

/-- `CustomGroup.tests_finished`. -/
def tests_finished (s : SchedState) : Bool :=
  s.collection_is_completed && s.pending.isEmpty &&
    s.node2pending.all fun p => decide (p.2.length < 2)

/-- `CustomGroup.has_pending`. -/
def has_pending (s : SchedState) : Bool :=
  !s.pending.isEmpty || s.node2pending.any fun p => !p.2.isEmpty

/-- `CustomGroup.add_node`; the `assert node not in self.node2pending`
makes registering a node twice an error. -/
def add_node (s : SchedState) (nd : NodeId) : Option SchedState :=
  match alookup nd s.node2pending with
  | some _ => none
  | none => some { s with node2pending := s.node2pending ++ [(nd, [])] }

/-- `CustomGroup.add_node_collection`.  Note `assert self.collection`
checks Python truthiness: it fails both when the collection is `None`
and when it is the empty list. -/
def add_node_collection (s : SchedState) (nd : NodeId) (col : List Ident) :
    Option SchedState :=
  if (alookup nd s.node2pending).isNone then none
  else if s.collection_is_completed then
    match s.collection with
    | none => none
    | some c =>
      if c.isEmpty then none
      else if col ≠ c then some s
      else some { s with node2collection := aset nd col s.node2collection }
  else some { s with node2collection := aset nd col s.node2collection }

/-- `node.shutdown()` as observed by the scheduler: mark the worker as
shutting down.  Modelled from the spec: `WorkerController` is outside
the given sources; per §6 a worker exposes `shutdown()` and an
`isShuttingDown` flag that is set once shutdown has been requested. -/
def shutdown_node (s : SchedState) (nd : NodeId) : SchedState :=
  if nd ∈ s.shutdown_sent then s
  else { s with shutdown_sent := s.shutdown_sent ++ [nd] }

/-- The `any_working` loop of `check_schedule`: some worker holds a
number of in-flight items outside `[0, 1]`. -/
def any_working (s : SchedState) : Bool :=
  s.node2pending.any fun p => !(p.2.length == 0 || p.2.length == 1)

/-- `for i in tests: self.pending.remove(i)` — each removal deletes the
first occurrence of the element and raises `ValueError` if it is
absent. -/
def pyRemoveEach : List Nat → List Nat → Option (List Nat)
  | p, [] => some p
  | p, t :: ts => if t ∈ p then pyRemoveEach (p.erase t) ts else none

/-- `CustomGroup._send_tests_group` for one node: move the first `num`
`pending_indices` of group `key` out of the global pending list and onto
the node, logging the send.  `self.pending.remove(i)` raises if `i` is
absent; `node2pending[node]` raises if the node is unregistered. -/
def send_tests_group (s : SchedState) (nd : NodeId) (num : Nat) (key : Ident) :
    Option SchedState :=
  match alookup key s.dist_groups with
  | none => none
  | some g =>
    let tests := g.pending_indices.take num
    if tests.isEmpty then some s
    else
      let rest := g.pending_indices.drop num
      let g' := { g with pending_indices := rest, test_indices := rest }
      match pyRemoveEach s.pending tests with
      | none => none
      | some pending' =>
        match alookup nd s.node2pending with
        | none => none
        | some np =>
          some { s with
            dist_groups := aset key g' s.dist_groups,
            pending := pending',
            node2pending := aset nd (np ++ tests) s.node2pending,
            sent := s.sent ++ [(nd, tests)] }

/-- The dispatch loop `for _ in range(n): self._send_tests_group(next(nodes), 1, key)`
where `nodes = cycle(sel)`; `next` on an empty cycle raises. -/
def send_loop (sel : List NodeId) (key : Ident) :
    Nat → Nat → SchedState → Option SchedState
  | 0, _, s => some s
  | fuel + 1, i, s =>
    match sel.get? (i % sel.length) with
    | none => none
    | some nd =>
      match send_tests_group s nd 1 key with
      | none => none
      | some s' => send_loop sel key fuel (i + 1) s'

/-- Dispatch one whole group: the shared tail of `schedule()` and of
`check_schedule` — look the group up, round-robin its items one at a
time over the first `group_workers` registered nodes, then delete the
group record.  The iteration count `len(dist_group['test_indices'])` is
evaluated once, before any send. -/
def dispatch_group (s : SchedState) (key : Ident) : Option SchedState :=
  match alookup key s.dist_groups with
  | none => none
  | some g =>
    let sel := pySlice s.nodes g.group_workers
    match send_loop sel key g.test_indices.length 0 s with
    | none => none
    | some s' => some { s' with dist_groups := aerase key s'.dist_groups }

/-- `CustomGroup.check_schedule` (the unused `duration` float parameter
is dropped). -/
def check_schedule (s : SchedState) (nd : NodeId) (from_dsession : Bool) :
    Option SchedState :=
  if nd ∈ s.shutdown_sent then some s
  else if !s.pending.isEmpty then
    if !s.any_working && from_dsession then
      match s.pending_groups with
      | [] => some s
      | key :: restG => dispatch_group { s with pending_groups := restG } key
    else some s
  else some (s.shutdown_node nd)

/-- `for node in self.nodes: self.check_schedule(node)` (the node list is
read once before the loop starts). -/
def check_all_nodes (s : SchedState) : Option SchedState :=
  go s.nodes s
where
  go : List NodeId → SchedState → Option SchedState
    | [], s => some s
    | nd :: rest, s =>
      match check_schedule s nd false with
      | none => none
      | some s' => go rest s'

/-- `CustomGroup.remove_node`.  `node2pending.pop(node)` raises on an
unknown node; on a crashed node with in-flight items the first index is
resolved against the collection and the rest re-join the global pending
list before every remaining node is re-checked. -/
def remove_node (s : SchedState) (nd : NodeId) :
    Option (Option Ident × SchedState) :=
  match alookup nd s.node2pending with
  | none => none
  | some pnd =>
    let s := { s with node2pending := aerase nd s.node2pending }
    match pnd with
    | [] => some (none, s)
    | i :: rest =>
      match s.collection with
      | none => none
      | some c =>
        match c.get? i with
        | none => none
        | some crashitem =>
          let s := { s with pending := s.pending ++ rest }
          match check_all_nodes s with
          | none => none
          | some s' => some (some crashitem, s')

/-- `CustomGroup.mark_test_complete`: `node2pending[node].remove(item_index)`
raises on an unknown node or absent index, then `check_schedule` runs. -/
def mark_test_complete (s : SchedState) (nd : NodeId) (idx : Nat) :
    Option SchedState :=
  match alookup nd s.node2pending with
  | none => none
  | some pnd =>
    if idx ∈ pnd then
      check_schedule
        { s with node2pending := aset nd (pnd.erase idx) s.node2pending } nd false
    else none

/-- The group-tag parse inside `schedule()` for one collected item:
`test.split('@')[-1]` names the group, `int(group_mark.split('_')[-1])`
is its worker count, clamped to the number of registered nodes; items
without `'@'` fall into group `"default"` using every node. -/
def groupTag (test : Ident) (numAvail : Nat) : Option (Ident × Int) :=
  if '@' ∈ test then
    let group_mark := (splitOnChar '@' test).getLastD []
    match parseInt ((splitOnChar '_' group_mark).getLastD []) with
    | none => none
    | some gw =>
      some (group_mark, if gw > (numAvail : Int) then (numAvail : Int) else gw)
  else some ("default".toList, (numAvail : Int))

/-- The group-building loop of `schedule()` over `enumerate(self.collection)`.
Each item appends itself and its index to its group's record; the worker
count written last wins; `test_indices` and `pending_indices` start out
as the same list. -/
def build_groups (numAvail : Nat) :
    List Ident → Nat → List (Ident × GroupRec) → Option (List (Ident × GroupRec))
  | [], _, acc => some acc
  | test :: rest, i, acc =>
    match groupTag test numAvail with
    | none => none
    | some (gm, gw) =>
      let existing_tests := match alookup gm acc with
        | some g => g.tests
        | none => []
      let existing_indices := match alookup gm acc with
        | some g => g.test_indices
        | none => []
      let idx' := existing_indices ++ [i]
      build_groups numAvail rest (i + 1)
        (aset gm
          { tests := existing_tests ++ [test]
            group_workers := gw
            test_indices := idx'
            pending_indices := idx' } acc)

/-- `CustomGroup.schedule`.  The `maxschedchunk` update is omitted: the
field is never read on any live path. -/
def schedule (s : SchedState) : Option SchedState :=
  if !s.collection_is_completed then none
  else
    match s.collection with
    | some _ => check_all_nodes s
    | none =>
      match s.node2collection with
      | [] => none
      | (_, col) :: restCols =>
        if !(restCols.all fun p => p.2 == col) then some s
        else
          let s := { s with collection := some col,
                            pending := List.range col.length }
          if col.isEmpty then some s
          else
            match
              (if s.is_first_time then
                match build_groups s.nodes.length col 0 [] with
                | none => none
                | some gs =>
                  some { s with dist_groups := gs,
                                pending_groups := gs.map Prod.fst,
                                is_first_time := false }
              else check_all_nodes s) with
            | none => none
            | some s =>
              match s.pending_groups with
              | [] => some s
              | key :: restG =>
                dispatch_group { s with pending_groups := restG } key

/-- Specification-side description of a group dispatch, following the
spec's words: "round-robin assign its items one-at-a-time across a
cyclic view of the first N workers ... sending one item per `send`
call".  `start` is the position in the cycle at which the dispatch
begins. -/
def roundRobinSends (sel : List NodeId) : Nat → List Nat → List (NodeId × List Nat)
  | _, [] => []
  | start, idx :: rest =>
    (sel.getD (start % sel.length) 0, [idx]) :: roundRobinSends sel (start + 1) rest

end SchedState

/-- The slice of `DSession` state that `worker_errordown` reads and
writes: the crashed-worker counter, the restart budget, the recorded
summary, the shutting-down flag, and a count of `_clone_node` calls. -/
structure DState where
  failed_nodes_count : Nat
  max_worker_restart : Option Nat
  summary_report : Option (List Char)
  shuttingdown : Bool
  clones : Nat
deriving DecidableEq, Repr

namespace DState

/-- The `maximum_reached` expression of `worker_errordown`. -/
def maximum_reached (count : Nat) (budget : Option Nat) : Bool :=
  match budget with
  | none => false
  | some m => decide (count > m)

/-- The budget logic of `DSession.worker_errordown` (after the scheduler
interaction, which is modelled separately by `SchedState.remove_node`):
count the crash, then either record a summary and trigger shutdown, or
clone a replacement worker. -/
def worker_errordown (d : DState) : DState :=
  let d := { d with failed_nodes_count := d.failed_nodes_count + 1 }
  if maximum_reached d.failed_nodes_count d.max_worker_restart then
    let msg := if d.max_worker_restart = some 0 then
        "worker crashed and worker restarting disabled".toList
      else "maximum crashed workers reached".toList
    { d with summary_report := some msg, shuttingdown := true }
  else
    { d with shuttingdown := false, clones := d.clones + 1 }

end DState

/-! ### Ordered-dict lemmas -/

section AList

variable {K V : Type _} [DecidableEq K]

theorem alookup_aset (k n : K) (v : V) (l : List (K × V)) :
    alookup n (aset k v l) = if n = k then some v else alookup n l := by
  induction l with
  | nil => by_cases h : n = k <;> simp [aset, alookup, h]
  | cons p t ih =>
    obtain ⟨k', v'⟩ := p
    by_cases hk : k = k'
    · subst hk
      by_cases hn : n = k <;> simp [aset, alookup, hn]
    · by_cases hn : n = k'
      · subst hn
        have hnk : ¬ n = k := fun h => hk h.symm
        simp [aset, alookup, hk, hnk]
      · simp [aset, alookup, hk, hn, ih]

theorem alookup_aset_self (k : K) (v : V) (l : List (K × V)) :
    alookup k (aset k v l) = some v := by
  simp [alookup_aset]

theorem alookup_aerase_of_ne (k n : K) (l : List (K × V)) (hne : n ≠ k) :
    alookup n (aerase k l) = alookup n l := by
  induction l with
  | nil => simp [aerase]
  | cons p t ih =>
    obtain ⟨k', v'⟩ := p
    by_cases hk : k = k'
    · subst hk
      simp [aerase, alookup, if_neg hne]
    · by_cases hn : n = k' <;> simp [aerase, alookup, hk, hn, ih]

theorem aset_keys (k : K) (v : V) (l : List (K × V))
    (h : (alookup k l).isSome) :
    (aset k v l).map Prod.fst = l.map Prod.fst := by
  induction l with
  | nil => simp [alookup] at h
  | cons p t ih =>
    obtain ⟨k', v'⟩ := p
    by_cases hk : k = k'
    · subst hk; simp [aset]
    · simp only [alookup, if_neg hk] at h
      simp [aset, hk, ih h]

theorem alookup_isSome_of_mem_keys (n : K) (l : List (K × V))
    (h : n ∈ l.map Prod.fst) : (alookup n l).isSome := by
  induction l with
  | nil => simp at h
  | cons p t ih =>
    obtain ⟨k', v'⟩ := p
    by_cases hn : n = k'
    · simp [alookup, hn]
    · simp only [List.map_cons, List.mem_cons] at h
      rcases h with h | h
      · exact absurd h hn
      · simp [alookup, hn, ih h]

theorem mem_aset (p : K × V) (k : K) (v : V) (l : List (K × V))
    (h : p ∈ aset k v l) : p = (k, v) ∨ p ∈ l := by
  induction l with
  | nil =>
    simp only [aset, List.mem_singleton] at h
    exact Or.inl h
  | cons q t ih =>
    obtain ⟨k', v'⟩ := q
    by_cases hk : k = k'
    · subst hk
      rw [show aset k v ((k, v') :: t) = (k, v) :: t from by simp [aset]] at h
      rcases List.mem_cons.mp h with h | h
      · exact Or.inl h
      · exact Or.inr (List.mem_cons_of_mem _ h)
    · rw [show aset k v ((k', v') :: t) = (k', v') :: aset k v t from by
          simp [aset, hk]] at h
      rcases List.mem_cons.mp h with h | h
      · exact Or.inr (h ▸ List.mem_cons_self _ _)
      · rcases ih h with h2 | h2
        · exact Or.inl h2
        · exact Or.inr (List.mem_cons_of_mem _ h2)

/-- Count of an element in the concatenated `f`-projections of an
ordered dict, after replacing the value at an existing key. -/
theorem count_flatten_aset (f : V → List Nat) (k : K) (v v' : V)
    (l : List (K × V)) (h : alookup k l = some v) (m : Nat) :
    (((aset k v' l).map fun p => f p.2).flatten).count m + (f v).count m
      = ((l.map fun p => f p.2).flatten).count m + (f v').count m := by
  induction l with
  | nil => simp [alookup] at h
  | cons p t ih =>
    obtain ⟨k', v₁⟩ := p
    by_cases hk : k = k'
    · subst hk
      simp [alookup] at h
      subst h
      rw [show aset k v' ((k, v₁) :: t) = (k, v') :: t from by simp [aset]]
      simp only [List.map_cons, List.flatten_cons, List.count_append]
      omega
    · simp only [alookup, if_neg hk] at h
      rw [show aset k v' ((k', v₁) :: t) = (k', v₁) :: aset k v' t from by
          simp [aset, hk]]
      simp only [List.map_cons, List.flatten_cons, List.count_append]
      have := ih h
      omega

/-- Count of an element in the concatenated `f`-projections after
deleting an existing key. -/
theorem count_flatten_aerase (f : V → List Nat) (k : K) (v : V)
    (l : List (K × V)) (h : alookup k l = some v) (m : Nat) :
    (((aerase k l).map fun p => f p.2).flatten).count m + (f v).count m
      = ((l.map fun p => f p.2).flatten).count m := by
  induction l with
  | nil => simp [alookup] at h
  | cons p t ih =>
    obtain ⟨k', v₁⟩ := p
    by_cases hk : k = k'
    · subst hk
      simp [alookup] at h
      subst h
      rw [show aerase k ((k, v₁) :: t) = t from by simp [aerase]]
      simp only [List.map_cons, List.flatten_cons, List.count_append]
      omega
    · simp only [alookup, if_neg hk] at h
      rw [show aerase k ((k', v₁) :: t) = (k', v₁) :: aerase k t from by
          simp [aerase, hk]]
      simp only [List.map_cons, List.flatten_cons, List.count_append]
      have := ih h
      omega

end AList

/-! ### `str.split` lemmas, for the group-tag parse -/

theorem splitOnChar_ne_nil (c : Char) (l : List Char) : splitOnChar c l ≠ [] := by
  cases l with
  | nil => simp [splitOnChar]
  | cons x xs =>
    simp only [splitOnChar]
    rcases h : splitOnChar c xs with _ | ⟨hd, tl⟩
    · simp
    · by_cases hx : x = c <;> simp [hx]

theorem splitOnChar_of_not_mem (c : Char) (l : List Char) (h : c ∉ l) :
    splitOnChar c l = [l] := by
  induction l with
  | nil => rfl
  | cons x xs ih =>
    simp only [List.mem_cons, not_or] at h
    have hx : ¬ x = c := fun hx => h.1 hx.symm
    simp only [splitOnChar, ih h.2, if_neg hx]

theorem splitOnChar_append (c : Char) (l₁ l₂ : List Char) :
    splitOnChar c (l₁ ++ c :: l₂) = splitOnChar c l₁ ++ splitOnChar c l₂ := by
  induction l₁ with
  | nil =>
    simp only [List.nil_append, splitOnChar]
    rcases h : splitOnChar c l₂ with _ | ⟨hd, tl⟩
    · exact absurd h (splitOnChar_ne_nil c l₂)
    · simp
  | cons x xs ih =>
    rcases h : splitOnChar c xs with _ | ⟨hd, tl⟩
    · exact absurd h (splitOnChar_ne_nil c xs)
    · simp only [List.cons_append, splitOnChar, List.append_eq]
      rw [ih, h]
      by_cases hx : x = c <;> simp [hx]

theorem getLastD_ne_nil_eq {α : Type _} (B : List α) (d d' : α)
    (h : B ≠ []) : B.getLastD d = B.getLastD d' := by
  cases B with
  | nil => exact absurd rfl h
  | cons b B' => rw [List.getLastD_cons, List.getLastD_cons]

theorem getLastD_append_of_ne_nil {α : Type _} (A B : List α) (d : α)
    (h : B ≠ []) : (A ++ B).getLastD d = B.getLastD d := by
  induction A generalizing d with
  | nil => rfl
  | cons a A ih =>
    rw [List.cons_append, List.getLastD_cons, ih a]
    exact getLastD_ne_nil_eq B a d h

/-! ### Frame lemmas: `check_schedule` with `from_dsession=False` only
ever shuts a worker down -/

namespace SchedState

theorem check_schedule_false_shutdown (s : SchedState) (nd : NodeId) :
    ∃ fl, check_schedule s nd false = some { s with shutdown_sent := fl } := by
  by_cases h1 : nd ∈ s.shutdown_sent
  · exact ⟨s.shutdown_sent, by simp [check_schedule, h1]⟩
  · by_cases h2 : s.pending.isEmpty
    · exact ⟨s.shutdown_sent ++ [nd], by
        simp [check_schedule, shutdown_node, h1, h2]⟩
    · exact ⟨s.shutdown_sent, by simp [check_schedule, h1, h2]⟩

theorem check_all_go_shutdown (l : List NodeId) (s : SchedState) :
    ∃ fl, check_all_nodes.go l s = some { s with shutdown_sent := fl } := by
  induction l generalizing s with
  | nil => exact ⟨s.shutdown_sent, rfl⟩
  | cons nd rest ih =>
    obtain ⟨fl, hfl⟩ := check_schedule_false_shutdown s nd
    obtain ⟨fl', hfl'⟩ := ih { s with shutdown_sent := fl }
    exact ⟨fl', by simp [check_all_nodes.go, hfl, hfl']⟩

theorem check_all_nodes_shutdown (s : SchedState) :
    ∃ fl, check_all_nodes s = some { s with shutdown_sent := fl } :=
  check_all_go_shutdown s.nodes s

end SchedState

/-! ### Further ordered-dict lemmas -/

section AList2

variable {K V : Type _} [DecidableEq K]

theorem alookup_mem (k : K) (v : V) (l : List (K × V))
    (h : alookup k l = some v) : (k, v) ∈ l := by
  induction l with
  | nil => simp [alookup] at h
  | cons p t ih =>
    obtain ⟨k', v'⟩ := p
    by_cases hk : k = k'
    · subst hk
      simp [alookup] at h
      simp [h]
    · simp only [alookup, if_neg hk] at h
      exact List.mem_cons_of_mem _ (ih h)

theorem aset_of_alookup_none (k : K) (v : V) (l : List (K × V))
    (h : alookup k l = none) : aset k v l = l ++ [(k, v)] := by
  induction l with
  | nil => rfl
  | cons p t ih =>
    obtain ⟨k', v'⟩ := p
    by_cases hk : k = k'
    · subst hk; simp [alookup] at h
    · simp only [alookup, if_neg hk] at h
      simp [aset, hk, ih h]

theorem alookup_none_not_mem_keys (k : K) (l : List (K × V))
    (h : alookup k l = none) : k ∉ l.map Prod.fst := by
  intro hmem
  have := alookup_isSome_of_mem_keys k l hmem
  rw [h] at this
  simp at this

theorem aset_keys_nodup (k : K) (v : V) (l : List (K × V))
    (h : (l.map Prod.fst).Nodup) : ((aset k v l).map Prod.fst).Nodup := by
  rcases hl : alookup k l with _ | w
  · rw [aset_of_alookup_none k v l hl]
    have hk := alookup_none_not_mem_keys k l hl
    simp only [List.map_append, List.map_cons, List.map_nil]
    exact List.Nodup.append h (List.nodup_singleton _)
      (fun a ha hb => by rw [List.mem_singleton] at hb; exact hk (hb ▸ ha))
  · rw [aset_keys k v l (by simp [hl])]
    exact h

theorem alookup_aerase_self_of_nodup (k : K) (l : List (K × V))
    (h : (l.map Prod.fst).Nodup) : alookup k (aerase k l) = none := by
  induction l with
  | nil => rfl
  | cons p t ih =>
    obtain ⟨k', v'⟩ := p
    simp only [List.map_cons, List.nodup_cons] at h
    by_cases hk : k = k'
    · subst hk
      rw [show aerase k ((k, v') :: t) = t from by simp [aerase]]
      rcases hl : alookup k t with _ | w
      · rfl
      · have hmem : k ∈ List.map Prod.fst t := by
          have h2 := alookup_mem k w t hl
          simpa using List.mem_map_of_mem Prod.fst h2
        exact absurd hmem h.1
    · rw [show aerase k ((k', v') :: t) = (k', v') :: aerase k t from by
          simp [aerase, hk]]
      simp only [alookup, if_neg hk]
      exact ih h.2

theorem count_flatten_aset_none (f : V → List Nat) (k : K) (v : V)
    (l : List (K × V)) (h : alookup k l = none) (m : Nat) :
    (((aset k v l).map fun p => f p.2).flatten).count m
      = ((l.map fun p => f p.2).flatten).count m + (f v).count m := by
  rw [aset_of_alookup_none k v l h]
  simp [List.count_append]

end AList2

/-! ### The dispatch loop -/

theorem count_cons_eq (a b : Nat) (l : List Nat) :
    (b :: l).count a = l.count a + if a = b then 1 else 0 := by
  by_cases h : a = b
  · subst h; simp [List.count_cons]
  · have h2 : ¬ b = a := fun e => h e.symm
    simp [List.count_cons, h, h2]

theorem count_erase_mem (a m : Nat) (l : List Nat) (h : a ∈ l) :
    (l.erase a).count m + (if m = a then 1 else 0) = l.count m := by
  by_cases hm : m = a
  · subst hm
    rw [List.count_erase_self, if_pos rfl]
    have hpos : 0 < l.count m := List.count_pos_iff_mem.mpr h
    omega
  · rw [List.count_erase_of_ne hm]
    simp [hm]

namespace SchedState

/-- One `_send_tests_group(node, 1, key)` call on a group whose pending
list starts with `idx`: `idx` moves from the global pending list to the
node's in-flight list, both (aliased) group index lists lose their head,
and the send is logged. -/
theorem send_tests_group_step (s : SchedState) (nd : NodeId) (key : Ident)
    (g : GroupRec) (idx : Nat) (L : List Nat) (np : List Nat)
    (hg : alookup key s.dist_groups = some g)
    (hpi : g.pending_indices = idx :: L)
    (hmem : idx ∈ s.pending)
    (hnp : alookup nd s.node2pending = some np) :
    s.send_tests_group nd 1 key
      = some { s with
          dist_groups := aset key
            { g with pending_indices := L, test_indices := L } s.dist_groups,
          pending := s.pending.erase idx,
          node2pending := aset nd (np ++ [idx]) s.node2pending,
          sent := s.sent ++ [(nd, [idx])] } := by
  simp only [send_tests_group, hg, hpi, List.take_succ_cons, List.take_zero,
    List.isEmpty_cons, List.drop_succ_cons, List.drop_zero, pyRemoveEach,
    if_pos hmem, hnp, Bool.false_eq_true, if_false]

/-- Net effect of the dispatch loop: starting at cycle position `i` on a
group whose (aliased) index lists both equal `L`, the loop sends the
elements of `L` one per call, round-robin over `sel`; each sent index
moves from the global pending list to the receiving node's in-flight
list, the group record drains to empty, and nothing else changes. -/
theorem send_loop_spec (L : List Nat) :
    ∀ (sel : List NodeId) (key : Ident) (i : Nat) (s : SchedState)
      (g : GroupRec),
      alookup key s.dist_groups = some g →
      g.pending_indices = L →
      g.test_indices = L →
      L.Nodup →
      (∀ x ∈ L, x ∈ s.pending) →
      (L ≠ [] → sel ≠ []) →
      (∀ n ∈ sel, (alookup n s.node2pending).isSome = true) →
      ∃ s', send_loop sel key L.length i s = some s'
        ∧ s'.sent = s.sent ++ roundRobinSends sel i L
        ∧ alookup key s'.dist_groups
            = some { g with pending_indices := [], test_indices := [] }
        ∧ (∀ k', k' ≠ key →
            alookup k' s'.dist_groups = alookup k' s.dist_groups)
        ∧ s'.dist_groups.map Prod.fst = s.dist_groups.map Prod.fst
        ∧ s'.node2pending.map Prod.fst = s.node2pending.map Prod.fst
        ∧ s'.pending_groups = s.pending_groups
        ∧ s'.collection = s.collection
        ∧ s'.shutdown_sent = s.shutdown_sent
        ∧ s'.node2collection = s.node2collection
        ∧ s'.numnodes = s.numnodes
        ∧ s'.is_first_time = s.is_first_time
        ∧ (∀ m, s'.pending.count m + L.count m = s.pending.count m)
        ∧ (∀ m, s'.inflight.count m = s.inflight.count m + L.count m)
        ∧ (∀ m,
            ((s'.dist_groups.map fun p => p.2.pending_indices).flatten).count m
                + L.count m
              = ((s.dist_groups.map fun p => p.2.pending_indices).flatten).count
                  m) := by
  induction L with
  | nil =>
    intro sel key i s g hg hpi hti _ _ _ _
    obtain ⟨ts, gw, ti, pi⟩ := g
    simp only at hpi hti
    subst hpi
    subst hti
    exact ⟨s, rfl, by simp [roundRobinSends], by rw [hg], fun k' _ => rfl, rfl,
      rfl, rfl, rfl, rfl, rfl, rfl, rfl, by simp, by simp, by simp⟩
  | cons idx L ih =>
    intro sel key i s g hg hpi hti hnodup hsub hselne hselreg
    have hselne' : sel ≠ [] := hselne (by simp)
    have hlen : i % sel.length < sel.length := by
      rcases sel with _ | ⟨a, sel'⟩
      · exact absurd rfl hselne'
      · exact Nat.mod_lt _ (by simp)
    have hget : sel.get? (i % sel.length) = some (sel.get ⟨i % sel.length, hlen⟩) :=
      List.get?_eq_get hlen
    set nd := sel.get ⟨i % sel.length, hlen⟩ with hnddef
    have hndmem : nd ∈ sel := List.get_mem _ _ _
    have hnpS := hselreg nd hndmem
    obtain ⟨np, hnp⟩ : ∃ np, alookup nd s.node2pending = some np := by
      rcases h : alookup nd s.node2pending with _ | np
      · rw [h] at hnpS; simp at hnpS
      · exact ⟨np, rfl⟩
    have hmem0 : idx ∈ s.pending := hsub idx (by simp)
    have hnodup' := List.nodup_cons.mp hnodup
    have hstep := send_tests_group_step s nd key g idx L np hg hpi hmem0 hnp
    obtain ⟨s', hloop, hsent, hkey, hkeys, hdkeys, hnkeys, hpg, hcol, hsh,
        hn2c, hnum, hft, hpcount, hicount, hgcount⟩ :=
      ih sel key (i + 1)
        { s with
          dist_groups := aset key
            { g with pending_indices := L, test_indices := L } s.dist_groups,
          pending := s.pending.erase idx,
          node2pending := aset nd (np ++ [idx]) s.node2pending,
          sent := s.sent ++ [(nd, [idx])] }
        { g with pending_indices := L, test_indices := L }
        (by simpa using alookup_aset_self key _ s.dist_groups)
        rfl rfl hnodup'.2
        (by
          intro x hx
          have hxne : x ≠ idx := fun h => hnodup'.1 (h ▸ hx)
          exact (List.mem_erase_of_ne hxne).mpr (hsub x (List.mem_cons_of_mem _ hx)))
        (fun _ => hselne')
        (by
          intro n hn
          rw [alookup_aset nd n (np ++ [idx]) s.node2pending]
          by_cases hcase : n = nd
          · simp [hcase]
          · rw [if_neg hcase]; exact hselreg n hn)
    refine ⟨s', ?_, ?_, ?_, ?_, ?_, ?_, hpg, hcol, hsh, hn2c, hnum, hft,
      ?_, ?_, ?_⟩
    · show send_loop sel key (L.length + 1) i s = some s'
      simp only [send_loop, hget, hstep]
      exact hloop
    · rw [hsent]
      have hgd : sel.getD (i % sel.length) 0 = nd := by
        rw [List.getD_eq_get?, hget]
        rfl
      simp only [roundRobinSends, hgd]
      simp
    · rw [hkey]
    · intro k' hk'
      have halook := alookup_aset key k'
        ({ g with pending_indices := L, test_indices := L }) s.dist_groups
      rw [hkeys k' hk', halook, if_neg hk']
    · rw [hdkeys]
      exact aset_keys key _ s.dist_groups (by simp [hg])
    · rw [hnkeys]
      exact aset_keys nd _ s.node2pending (by simp [hnp])
    · intro m
      have h1 := hpcount m
      try dsimp only at h1
      have h2 := count_erase_mem idx m s.pending hmem0
      rw [count_cons_eq]
      omega
    · intro m
      have h1 := hicount m
      simp only [inflight] at h1 ⊢
      have h2 := count_flatten_aset (fun v => v) nd np (np ++ [idx])
        s.node2pending hnp m
      try dsimp only at h2
      rw [List.count_append] at h2
      have h3 : ([idx] : List Nat).count m = if m = idx then 1 else 0 := by
        rw [count_cons_eq]; simp
      rw [h3] at h2
      rw [count_cons_eq]
      omega
    · intro m
      have h1 := hgcount m
      try dsimp only at h1
      have h2 := count_flatten_aset (fun v => v.pending_indices) key g
        ({ g with pending_indices := L, test_indices := L }) s.dist_groups hg m
      try dsimp only at h2
      rw [hpi] at h2
      rw [count_cons_eq] at h2 ⊢
      omega

/-- Net effect of dispatching one whole group (the shared tail of
`schedule()` and of `check_schedule`): look the group up, round-robin
all its items one per send over the first `group_workers` registered
nodes, then delete the group record. -/
theorem dispatch_group_spec (s : SchedState) (key : Ident) (g : GroupRec)
    (hg : alookup key s.dist_groups = some g)
    (hpi : g.pending_indices = g.test_indices)
    (hnodup : g.test_indices.Nodup)
    (hsub : ∀ x ∈ g.test_indices, x ∈ s.pending)
    (hsel : g.test_indices ≠ [] → pySlice s.nodes g.group_workers ≠ []) :
    ∃ s', s.dispatch_group key = some s'
      ∧ s'.sent = s.sent
          ++ roundRobinSends (pySlice s.nodes g.group_workers) 0 g.test_indices
      ∧ (∀ k', k' ≠ key →
          alookup k' s'.dist_groups = alookup k' s.dist_groups)
      ∧ ((s.dist_groups.map Prod.fst).Nodup →
          alookup key s'.dist_groups = none)
      ∧ s'.node2pending.map Prod.fst = s.node2pending.map Prod.fst
      ∧ s'.pending_groups = s.pending_groups
      ∧ s'.collection = s.collection
      ∧ s'.shutdown_sent = s.shutdown_sent
      ∧ s'.node2collection = s.node2collection
      ∧ s'.numnodes = s.numnodes
      ∧ s'.is_first_time = s.is_first_time
      ∧ (∀ m, s'.pending.count m + g.test_indices.count m = s.pending.count m)
      ∧ (∀ m, s'.inflight.count m
            = s.inflight.count m + g.test_indices.count m)
      ∧ (∀ m,
          ((s'.dist_groups.map fun p => p.2.pending_indices).flatten).count m
              + g.test_indices.count m
            = ((s.dist_groups.map fun p => p.2.pending_indices).flatten).count
                m) := by
  have hselreg : ∀ n ∈ pySlice s.nodes g.group_workers,
      (alookup n s.node2pending).isSome = true := by
    intro n hn
    have hn2 : n ∈ s.nodes := by
      unfold pySlice at hn
      by_cases h0 : (0 : Int) ≤ g.group_workers
      · rw [if_pos h0] at hn; exact List.take_subset _ _ hn
      · rw [if_neg h0] at hn; exact List.take_subset _ _ hn
    exact alookup_isSome_of_mem_keys n s.node2pending hn2
  obtain ⟨s₀, hloop, hsent, hkey, hkeys, hdkeys, hnkeys, hpg, hcol, hsh,
      hn2c, hnum, hft, hpcount, hicount, hgcount⟩ :=
    send_loop_spec g.test_indices (pySlice s.nodes g.group_workers) key 0 s g
      hg hpi rfl hnodup hsub hsel hselreg
  refine ⟨{ s₀ with dist_groups := aerase key s₀.dist_groups }, ?_, hsent, ?_,
    ?_, hnkeys, hpg, hcol, hsh, hn2c, hnum, hft, hpcount, hicount, ?_⟩
  · unfold dispatch_group
    rw [hg]
    simp only [hloop]
  · intro k' hk'
    dsimp only
    rw [alookup_aerase_of_ne key k' s₀.dist_groups hk']
    exact hkeys k' hk'
  · intro hnod
    dsimp only
    have : (s₀.dist_groups.map Prod.fst).Nodup := by rw [hdkeys]; exact hnod
    exact alookup_aerase_self_of_nodup key s₀.dist_groups this
  · intro m
    have h1 := hgcount m
    have h2 := count_flatten_aerase (fun v => v.pending_indices) key
      ({ g with pending_indices := [], test_indices := [] }) s₀.dist_groups
      hkey m
    dsimp only at h2 ⊢
    simp only [List.count_nil] at h2
    omega

end SchedState

/-! ### Claim theorems -/

namespace SchedState

/-- C2: `tests_finished` is true exactly when collection is complete,
the global pending list is empty, and every registered worker holds at
most one in-flight item; a worker holding exactly one item therefore
never blocks completion, while one holding two or more always does. -/
theorem c2_tests_finished_iff (s : SchedState) :
    s.tests_finished = true ↔
      s.collection_is_completed = true ∧ s.pending = [] ∧
        ∀ p ∈ s.node2pending, p.2.length ≤ 1 := by
  unfold tests_finished
  simp only [Bool.and_eq_true, List.all_eq_true, List.isEmpty_iff,
    decide_eq_true_eq]
  constructor
  · rintro ⟨⟨hc, hp⟩, hall⟩
    exact ⟨hc, hp, fun p hp2 => by have := hall p hp2; omega⟩
  · rintro ⟨hc, hp, hall⟩
    exact ⟨⟨hc, hp⟩, fun p hp2 => by have := hall p hp2; omega⟩

/-- C10: removing a worker whose in-flight list is empty just pops it
from `node2pending` and returns no crash item; the global pending list,
the send log, the shutdown flags, and every other worker's in-flight
list are untouched. -/
theorem c10_remove_node_idle (s : SchedState) (nd : NodeId)
    (h : alookup nd s.node2pending = some []) :
    s.remove_node nd
      = some (none, { s with node2pending := aerase nd s.node2pending })
    ∧ ∀ m : NodeId, m ≠ nd →
        alookup m (aerase nd s.node2pending) = alookup m s.node2pending := by
  refine ⟨?_, fun m hm => alookup_aerase_of_ne nd m _ hm⟩
  simp [remove_node, h]

theorem c10_remove_node_idle_witness :
    (({ init 2 with node2pending := [(0, []), (1, [5])] } : SchedState).remove_node 0
      = some (none, { ({ init 2 with node2pending := [(0, []), (1, [5])] } : SchedState) with
          node2pending := aerase 0 [(0, []), (1, [5])] }))
    ∧ ∀ m : NodeId, m ≠ 0 →
        alookup m (aerase 0 ([(0, []), (1, [5])] : List (NodeId × List Nat)))
          = alookup m ([(0, []), (1, [5])] : List (NodeId × List Nat)) :=
  c10_remove_node_idle { init 2 with node2pending := [(0, []), (1, [5])] } 0 (by decide)

/-- C9: calling `schedule()` again once the collection is finalized only
re-runs `check_schedule` over every node: the groups, the pending-group
queue, the collection, the global pending list, the in-flight lists and
the send log are all left unchanged. -/
theorem c9_schedule_reentrant (s : SchedState) (c : List Ident)
    (hcomp : s.collection_is_completed = true) (hcol : s.collection = some c) :
    ∃ s', s.schedule = some s'
      ∧ s'.dist_groups = s.dist_groups
      ∧ s'.pending_groups = s.pending_groups
      ∧ s'.collection = s.collection
      ∧ s'.pending = s.pending
      ∧ s'.node2pending = s.node2pending
      ∧ s'.sent = s.sent
      ∧ s.schedule = s.check_all_nodes := by
  obtain ⟨fl, hfl⟩ := check_all_nodes_shutdown s
  have hsched : s.schedule = s.check_all_nodes := by
    simp [schedule, hcomp, hcol]
  exact ⟨{ s with shutdown_sent := fl }, by rw [hsched, hfl], rfl, rfl, rfl,
    rfl, rfl, rfl, hsched⟩

theorem c9_schedule_reentrant_witness :
    ∃ s', ({ init 0 with collection := some [] } : SchedState).schedule = some s'
      ∧ s'.dist_groups = ({ init 0 with collection := some [] } : SchedState).dist_groups
      ∧ s'.pending_groups = ({ init 0 with collection := some [] } : SchedState).pending_groups
      ∧ s'.collection = ({ init 0 with collection := some [] } : SchedState).collection
      ∧ s'.pending = ({ init 0 with collection := some [] } : SchedState).pending
      ∧ s'.node2pending = ({ init 0 with collection := some [] } : SchedState).node2pending
      ∧ s'.sent = ({ init 0 with collection := some [] } : SchedState).sent
      ∧ ({ init 0 with collection := some [] } : SchedState).schedule
          = ({ init 0 with collection := some [] } : SchedState).check_all_nodes :=
  c9_schedule_reentrant _ [] (by decide) rfl

/-- C8: while the global pending list is empty, `check_schedule` sends
nothing and shuts the polled worker down; because the worker is then
marked shutting-down, any further call for it is a no-op. -/
theorem c8_check_schedule_empty_pending (s : SchedState) (nd : NodeId)
    (b b' : Bool) (hp : s.pending = []) (hnd : nd ∉ s.shutdown_sent) :
    ∃ s₁, s.check_schedule nd b = some s₁
      ∧ s₁ = { s with shutdown_sent := s.shutdown_sent ++ [nd] }
      ∧ s₁.sent = s.sent
      ∧ nd ∈ s₁.shutdown_sent
      ∧ s₁.check_schedule nd b' = some s₁ := by
  have hmem : nd ∈ s.shutdown_sent ++ [nd] := by simp
  refine ⟨{ s with shutdown_sent := s.shutdown_sent ++ [nd] }, ?_, rfl, rfl,
    hmem, ?_⟩
  · simp [check_schedule, shutdown_node, hnd, hp]
  · simp [check_schedule, hmem]

theorem c8_check_schedule_empty_pending_witness :
    ∃ s₁, ({ init 1 with node2pending := [(0, [])] } : SchedState).check_schedule 0 true
        = some s₁
      ∧ s₁ = { ({ init 1 with node2pending := [(0, [])] } : SchedState) with
          shutdown_sent := [] ++ [0] }
      ∧ s₁.sent = ({ init 1 with node2pending := [(0, [])] } : SchedState).sent
      ∧ 0 ∈ s₁.shutdown_sent
      ∧ s₁.check_schedule 0 false = some s₁ :=
  c8_check_schedule_empty_pending _ 0 true false rfl (by decide)

end SchedState

/-- C6: every crash handled by `worker_errordown` increments the
failed-worker counter; when the incremented counter exceeds the
restart budget a summary is recorded and shutdown is triggered with no
replacement cloned, otherwise exactly one replacement is cloned; with a
budget of 2 the first two crashes clone and the third shuts down. -/
theorem c6_worker_errordown_budget :
    (∀ d : DState,
        d.worker_errordown.failed_nodes_count = d.failed_nodes_count + 1
      ∧ d.worker_errordown.clones =
          (if DState.maximum_reached (d.failed_nodes_count + 1) d.max_worker_restart
            then d.clones else d.clones + 1)
      ∧ d.worker_errordown.summary_report =
          (if DState.maximum_reached (d.failed_nodes_count + 1) d.max_worker_restart
            then some (if d.max_worker_restart = some 0 then
                "worker crashed and worker restarting disabled".toList
              else "maximum crashed workers reached".toList)
            else d.summary_report)
      ∧ d.worker_errordown.shuttingdown =
          (if DState.maximum_reached (d.failed_nodes_count + 1) d.max_worker_restart
            then true else false))
  ∧ (let d0 : DState :=
        { failed_nodes_count := 0, max_worker_restart := some 2,
          summary_report := none, shuttingdown := false, clones := 0 }
     (d0.worker_errordown.clones = 1 ∧ d0.worker_errordown.shuttingdown = false)
     ∧ (d0.worker_errordown.worker_errordown.clones = 2
        ∧ d0.worker_errordown.worker_errordown.shuttingdown = false)
     ∧ d0.worker_errordown.worker_errordown.worker_errordown.clones = 2
     ∧ d0.worker_errordown.worker_errordown.worker_errordown.shuttingdown = true
     ∧ d0.worker_errordown.worker_errordown.worker_errordown.summary_report.isSome
         = true) := by
  constructor
  · intro d
    unfold DState.worker_errordown
    by_cases h : DState.maximum_reached (d.failed_nodes_count + 1)
        d.max_worker_restart <;> simp [h]
  · exact ⟨⟨rfl, rfl⟩, ⟨rfl, rfl⟩, rfl, rfl, rfl⟩

namespace SchedState

/-- C7 (amended): once the collection is complete and finalized to a
non-empty list, a divergent report from a registered worker is logged
and discarded: the state is returned unchanged (the worker stays in
`node2pending`, `node2collection` is not updated, the collection is
untouched) and no exception is raised.  The non-emptiness premise is
forced by `assert self.collection`, which fails on a finalized empty
collection (see the counterexample). -/
theorem c7_divergent_report_discarded (s : SchedState) (nd : NodeId)
    (col c : List Ident) (hreg : (alookup nd s.node2pending).isSome = true)
    (hcomp : s.collection_is_completed = true)
    (hcol : s.collection = some c) (hne : ¬c.isEmpty = true) (hdiff : col ≠ c) :
    s.add_node_collection nd col = some s := by
  have hno : (alookup nd s.node2pending).isNone = false := by
    rcases h : alookup nd s.node2pending with _ | v
    · rw [h] at hreg; simp at hreg
    · rfl
  simp [add_node_collection, hno, hcomp, hcol, hne, hdiff]

theorem c7_divergent_report_discarded_witness :
    ({ init 1 with node2pending := [(0, [])],
                   node2collection := [(0, [['a']])],
                   collection := some [['a']] } : SchedState).add_node_collection
        0 [['b']]
      = some { init 1 with node2pending := [(0, [])],
                           node2collection := [(0, [['a']])],
                           collection := some [['a']] } :=
  c7_divergent_report_discarded _ 0 [['b']] [['a']] (by decide) (by decide) rfl
    (by decide) (by decide)

/-- C7 counterexample: reachable by the public operations — one expected
worker reports an empty collection, `schedule()` finalizes the empty
collection, a second worker joins and reports `["x"]`.  The report
differs from the finalized collection, yet `add_node_collection` raises
(`assert self.collection` fails on the empty list) instead of logging
and discarding the report. -/
theorem c7_counterexample :
    ((((((init 1).add_node 0).bind
        (fun s => s.add_node_collection 0 [])).bind
        schedule).bind
        (fun s => s.add_node 1)).bind
        (fun s => s.add_node_collection 1 [['x']]) = none)
  ∧ ((((((init 1).add_node 0).bind
        (fun s => s.add_node_collection 0 [])).bind
        schedule).bind
        (fun s => s.add_node 1)).map
        (fun s => (s.collection, s.collection_is_completed,
          (alookup 1 s.node2pending).isSome))
      = some (some [], true, true))
  ∧ ([['x']] : List Ident) ≠ [] := by decide

end SchedState

namespace SchedState

theorem getLastD_singleton {α : Type _} (x d : α) :
    ([x] : List α).getLastD d = x := by
  rw [List.getLastD_cons]
  rfl

/-- C5: for an identifier containing `'@'`, the group name is the
substring after the last `'@'` and the worker count is the integer after
the last `'_'` of that substring, clamped down to the number of
registered workers when it exceeds it; an identifier without `'@'` falls
into group `"default"` with all registered workers. -/
theorem c5_group_tag_parse (test : Ident) (numAvail : Nat) :
    (∀ base gname pre digits : List Char, ∀ w : Int,
        test = base ++ '@' :: gname → '@' ∉ gname →
        gname = pre ++ '_' :: digits → '_' ∉ digits →
        parseInt digits = some w →
        groupTag test numAvail
          = some (gname,
              if w > (numAvail : Int) then (numAvail : Int) else w))
  ∧ ('@' ∉ test →
      groupTag test numAvail = some ("default".toList, (numAvail : Int))) := by
  constructor
  · rintro base gname pre digits w rfl hg rfl hd hw
    have hmem : '@' ∈ base ++ '@' :: (pre ++ '_' :: digits) := by simp
    have hsplit1 :
        (splitOnChar '@' (base ++ '@' :: (pre ++ '_' :: digits))).getLastD []
          = pre ++ '_' :: digits := by
      rw [splitOnChar_append, splitOnChar_of_not_mem _ _ hg,
        getLastD_append_of_ne_nil _ _ _ (by simp), getLastD_singleton]
    have hsplit2 :
        (splitOnChar '_' (pre ++ '_' :: digits)).getLastD [] = digits := by
      rw [splitOnChar_append, splitOnChar_of_not_mem _ _ hd,
        getLastD_append_of_ne_nil _ _ _ (by simp), getLastD_singleton]
    unfold groupTag
    rw [if_pos hmem]
    simp only [hsplit1, hsplit2, hw]
  · intro h
    unfold groupTag
    rw [if_neg h]

theorem c5_group_tag_parse_witness :
    groupTag "a@grp_2".toList 1 = some ("grp_2".toList, 1)
  ∧ groupTag "plain".toList 3 = some ("default".toList, 3) := by
  constructor
  · have h := (c5_group_tag_parse "a@grp_2".toList 1).1 "a".toList
      "grp_2".toList "grp".toList "2".toList 2 (by decide) (by decide)
      (by decide) (by decide) (by decide)
    simpa using h
  · exact (c5_group_tag_parse "plain".toList 3).2 (by decide)

end SchedState

section AList3

variable {K V : Type _} [DecidableEq K]

theorem aset_ne_nil (k : K) (v : V) (l : List (K × V)) : aset k v l ≠ [] := by
  cases l with
  | nil => simp [aset]
  | cons p t =>
    obtain ⟨k', v'⟩ := p
    by_cases hk : k = k' <;> simp [aset, hk]

theorem flatten_all_nil {A B : Type _} (l : List (A × List B))
    (h : ∀ p ∈ l, p.2 = []) : (l.map fun p => p.2).flatten = [] := by
  induction l with
  | nil => rfl
  | cons p t ih =>
    simp only [List.map_cons, List.flatten_cons]
    rw [h p (List.mem_cons_self _ _), ih fun q hq => h q (List.mem_cons_of_mem _ hq)]
    rfl

end AList3

namespace SchedState

/-- Invariants of the group-building loop of `schedule()`: every group
record keeps its two (aliased) index lists equal, non-empty, duplicate
free and bounded by the enumeration counter; the concatenation of all
groups' pending indices counts each enumerated index exactly once; the
dict keys stay duplicate free; and the dict is non-empty as soon as one
item has been processed. -/
theorem build_groups_spec (nAvail : Nat) :
    ∀ (col : List Ident) (i : Nat) (acc gs : List (Ident × GroupRec)),
      build_groups nAvail col i acc = some gs →
      (∀ p ∈ acc, p.2.pending_indices = p.2.test_indices
        ∧ p.2.test_indices ≠ [] ∧ p.2.test_indices.Nodup
        ∧ ∀ x ∈ p.2.test_indices, x < i) →
      (acc.map Prod.fst).Nodup →
      (∀ p ∈ gs, p.2.pending_indices = p.2.test_indices
        ∧ p.2.test_indices ≠ [] ∧ p.2.test_indices.Nodup
        ∧ ∀ x ∈ p.2.test_indices, x < i + col.length)
      ∧ (∀ m, ((gs.map fun p => p.2.pending_indices).flatten).count m
            = ((acc.map fun p => p.2.pending_indices).flatten).count m
              + (List.range' i col.length).count m)
      ∧ (gs.map Prod.fst).Nodup
      ∧ ((acc ≠ [] ∨ col ≠ []) → gs ≠ []) := by
  intro col
  induction col with
  | nil =>
    intro i acc gs h hA hK
    simp only [build_groups, Option.some_inj] at h
    subst h
    refine ⟨fun p hp => ?_, by simp [List.range'], hK, ?_⟩
    · obtain ⟨h1, h2, h3, h4⟩ := hA p hp
      exact ⟨h1, h2, h3, fun x hx => by have := h4 x hx; omega⟩
    · rintro (hne | hne)
      · exact hne
      · exact absurd rfl hne
  | cons test rest ih =>
    intro i acc gs h hA hK
    rcases htag : groupTag test nAvail with _ | ⟨gm, gw⟩
    · rw [build_groups, htag] at h
      exact absurd h (by simp)
    · simp only [build_groups, htag] at h
      rcases halook : alookup gm acc with _ | g
      · -- new group: existing lists are empty
        simp only [halook] at h
        simp only [List.nil_append] at h
        have hmem := mem_aset (k := gm)
          (v := { tests := [test], group_workers := gw,
                  test_indices := [i], pending_indices := [i] }) (l := acc)
        obtain ⟨hA', hB', hK', hNE'⟩ := ih (i + 1) _ gs h
          (by
            intro p hp
            rcases hmem p hp with hp2 | hp2
            · subst hp2
              exact ⟨rfl, by simp, List.nodup_singleton _, by simp⟩
            · obtain ⟨h1, h2, h3, h4⟩ := hA p hp2
              exact ⟨h1, h2, h3, fun x hx => Nat.lt_succ_of_lt (h4 x hx)⟩)
          (aset_keys_nodup gm _ acc hK)
        refine ⟨fun p hp => ?_, fun m => ?_, hK', ?_⟩
        · obtain ⟨h1, h2, h3, h4⟩ := hA' p hp
          exact ⟨h1, h2, h3, fun x hx => by have := h4 x hx; simp; omega⟩
        · have hBm := hB' m
          have hset := count_flatten_aset_none (fun v => v.pending_indices) gm
            ({ tests := [test], group_workers := gw,
               test_indices := [i], pending_indices := [i] }) acc halook m
          dsimp only at hset
          simp only [List.length_cons]
          rw [show List.range' i (rest.length + 1) = i :: List.range' (i + 1)
              rest.length from rfl]
          rw [count_cons_eq]
          rw [hset] at hBm
          have hsing : ([i] : List Nat).count m = if m = i then 1 else 0 := by
            rw [count_cons_eq]; simp
          rw [hsing] at hBm
          omega
        · intro _
          exact hNE' (Or.inl (aset_ne_nil gm _ acc))
      · -- existing group: indices are appended
        simp only [halook] at h
        obtain ⟨hgp, hgne, hgnodup, hgbound⟩ := hA (gm, g) (alookup_mem gm g acc halook)
        dsimp only at hgp hgne hgnodup hgbound
        have hmem := mem_aset (k := gm)
          (v := { tests := g.tests ++ [test], group_workers := gw,
                  test_indices := g.test_indices ++ [i],
                  pending_indices := g.test_indices ++ [i] }) (l := acc)
        obtain ⟨hA', hB', hK', hNE'⟩ := ih (i + 1) _ gs h
          (by
            intro p hp
            rcases hmem p hp with hp2 | hp2
            · subst hp2
              refine ⟨rfl, by simp, ?_, ?_⟩
              · rw [List.nodup_append]
                exact ⟨hgnodup, List.nodup_singleton _,
                  fun x hx hy => by
                    rw [List.mem_singleton] at hy
                    subst hy
                    exact absurd (hgbound x hx) (by omega)⟩
              · intro x hx
                rcases List.mem_append.mp hx with hx2 | hx2
                · exact Nat.lt_succ_of_lt (hgbound x hx2)
                · rw [List.mem_singleton] at hx2; omega
            · obtain ⟨h1, h2, h3, h4⟩ := hA p hp2
              exact ⟨h1, h2, h3, fun x hx => Nat.lt_succ_of_lt (h4 x hx)⟩)
          (aset_keys_nodup gm _ acc hK)
        refine ⟨fun p hp => ?_, fun m => ?_, hK', ?_⟩
        · obtain ⟨h1, h2, h3, h4⟩ := hA' p hp
          exact ⟨h1, h2, h3, fun x hx => by have := h4 x hx; simp; omega⟩
        · have hBm := hB' m
          have hset := count_flatten_aset (fun v => v.pending_indices) gm g
            ({ tests := g.tests ++ [test], group_workers := gw,
               test_indices := g.test_indices ++ [i],
               pending_indices := g.test_indices ++ [i] }) acc halook m
          dsimp only at hset
          simp only [List.length_cons]
          rw [show List.range' i (rest.length + 1) = i :: List.range' (i + 1)
              rest.length from rfl]
          rw [count_cons_eq]
          rw [hgp] at hset
          rw [List.count_append] at hset
          have hsing : ([i] : List Nat).count m = if m = i then 1 else 0 := by
            rw [count_cons_eq]; simp
          rw [hsing] at hset
          omega
        · intro _
          exact hNE' (Or.inl (aset_ne_nil gm _ acc))

end SchedState

namespace SchedState

/-- C3: `check_schedule` dispatches a group only when the global pending
list is non-empty, every registered worker holds 0 or 1 in-flight items,
the call has `from_dsession` true, and `pending_groups` is non-empty
(first conjunct: under those conditions, for a worker not already
shutting down, it pops the first pending group name, round-robin assigns
the group's items one per send across a cyclic view of the first
`group_workers` registered nodes, and deletes the consumed group
record); when any of the four conditions fails nothing is sent, no group
record is consumed and the pending-group queue is not popped (second
conjunct). -/
theorem c3_check_schedule_dispatch (s : SchedState) (nd : NodeId) :
    (∀ (b : Bool) (key : Ident) (restG : List Ident) (g : GroupRec),
        nd ∉ s.shutdown_sent →
        s.pending ≠ [] →
        s.any_working = false →
        b = true →
        s.pending_groups = key :: restG →
        alookup key s.dist_groups = some g →
        g.pending_indices = g.test_indices →
        g.test_indices.Nodup →
        (∀ x ∈ g.test_indices, x ∈ s.pending) →
        (g.test_indices ≠ [] → pySlice s.nodes g.group_workers ≠ []) →
        (s.dist_groups.map Prod.fst).Nodup →
        ∃ s', s.check_schedule nd b = some s'
          ∧ s'.sent = s.sent
              ++ roundRobinSends (pySlice s.nodes g.group_workers) 0
                  g.test_indices
          ∧ s'.pending_groups = restG
          ∧ alookup key s'.dist_groups = none
          ∧ (∀ k', k' ≠ key →
              alookup k' s'.dist_groups = alookup k' s.dist_groups))
  ∧ (∀ b : Bool,
        (s.pending = [] ∨ s.any_working = true ∨ b = false ∨
          s.pending_groups = []) →
        ∀ s', s.check_schedule nd b = some s' →
          s'.sent = s.sent ∧ s'.dist_groups = s.dist_groups
            ∧ s'.pending_groups = s.pending_groups) := by
  constructor
  · rintro b key restG g h1 h2 haw rfl hpq hg hpi hnodup hsub hsel hkeysnodup
    obtain ⟨s', hdisp, hsent, hkeys, hdel, hnkeys, hpg, hcol, hsh, hn2c, hnum,
        hft, hpc, hic, hgc⟩ :=
      dispatch_group_spec { s with pending_groups := restG } key g hg hpi
        hnodup hsub hsel
    refine ⟨s', ?_, hsent, by rw [hpg], hdel hkeysnodup, hkeys⟩
    unfold check_schedule
    rw [if_neg h1]
    have h2' : (!s.pending.isEmpty) = true := by
      simp [List.isEmpty_iff, h2]
    rw [if_pos h2']
    rw [haw]
    simp only [Bool.not_false, Bool.true_and, if_pos rfl, hpq]
    exact hdisp
  · intro b hcond s' h
    unfold check_schedule at h
    by_cases h1 : nd ∈ s.shutdown_sent
    · rw [if_pos h1] at h
      obtain rfl : s = s' := Option.some_inj.mp h
      exact ⟨rfl, rfl, rfl⟩
    · rw [if_neg h1] at h
      by_cases h2 : s.pending.isEmpty
      · rw [h2] at h
        simp only [Bool.not_true, Bool.false_eq_true, if_false] at h
        obtain rfl : s.shutdown_node nd = s' := Option.some_inj.mp h
        unfold shutdown_node
        by_cases h3 : nd ∈ s.shutdown_sent <;> simp [h3]
      · have h2' : s.pending ≠ [] := by
          intro he
          rw [he] at h2
          exact h2 rfl
        rw [show s.pending.isEmpty = false from by
            rcases hp : s.pending with _ | _
            · exact absurd hp h2'
            · rfl] at h
        simp only [Bool.not_false, if_pos rfl] at h
        by_cases h3 : (s.any_working = false) ∧ b = true
        · rw [h3.1, h3.2] at h
          simp only [Bool.not_false, Bool.true_and, if_pos rfl] at h
          rcases hcond with hc | hc | hc | hc
          · exact absurd hc h2'
          · rw [hc] at h3; simp at h3
          · rw [hc] at h3; simp at h3
          · rw [hc] at h
            obtain rfl : s = s' := Option.some_inj.mp h
            exact ⟨rfl, rfl, rfl⟩
        · have h4 : (!s.any_working && b) = false := by
            rcases hb : b with _ | _
            · simp [hb]
            · rcases haw : s.any_working with _ | _
              · exact absurd ⟨haw, hb⟩ h3
              · simp [haw]
          rw [h4] at h
          simp only [Bool.false_eq_true, if_false] at h
          obtain rfl : s = s' := Option.some_inj.mp h
          exact ⟨rfl, rfl, rfl⟩

/-- C4: removing a worker holding in-flight items `i :: rest` returns
the collection item at index `i` as the crash item, appends `rest` to
the global pending list, drops the worker from `node2pending`, and then
re-runs `check_schedule` on every remaining registered worker (which,
called without `from_dsession`, can only mark idle workers as shutting
down — groups, pending work and the send log are unchanged). -/
theorem c4_remove_node_crash (s : SchedState) (nd : NodeId) (i : Nat)
    (rest : List Nat) (c : List Ident) (item : Ident)
    (hpend : alookup nd s.node2pending = some (i :: rest))
    (hcol : s.collection = some c)
    (hitem : c.get? i = some item) :
    ∃ s', s.remove_node nd = some (some item, s')
      ∧ s'.pending = s.pending ++ rest
      ∧ s'.node2pending = aerase nd s.node2pending
      ∧ s'.dist_groups = s.dist_groups
      ∧ s'.pending_groups = s.pending_groups
      ∧ s'.collection = s.collection
      ∧ s'.sent = s.sent
      ∧ check_all_nodes { s with node2pending := aerase nd s.node2pending,
                                 pending := s.pending ++ rest }
          = some s' := by
  obtain ⟨fl, hfl⟩ := check_all_nodes_shutdown
    { s with node2pending := aerase nd s.node2pending,
             pending := s.pending ++ rest }
  refine ⟨{ s with node2pending := aerase nd s.node2pending,
                   pending := s.pending ++ rest, shutdown_sent := fl },
    ?_, rfl, rfl, rfl, rfl, rfl, rfl, hfl⟩
  unfold remove_node
  rw [hpend]
  simp only [hcol, hitem]
  rw [← hcol]
  simp only [hfl]

theorem c4_remove_node_crash_witness :
    ∃ s', ({ init 2 with node2pending := [(0, [1, 2]), (7, [])],
                          collection := some [['a'], ['b'], ['c']],
                          pending := [0] } : SchedState).remove_node 0
        = some (some ['b'], s')
      ∧ s'.pending = [0] ++ [2]
      ∧ s'.node2pending = aerase 0 [(0, [1, 2]), (7, [])]
      ∧ s'.dist_groups = []
      ∧ s'.pending_groups = []
      ∧ s'.collection = some [['a'], ['b'], ['c']]
      ∧ s'.sent = []
      ∧ check_all_nodes
          { ({ init 2 with node2pending := [(0, [1, 2]), (7, [])],
                           collection := some [['a'], ['b'], ['c']],
                           pending := [0] } : SchedState) with
            node2pending := aerase 0 [(0, [1, 2]), (7, [])],
            pending := [0] ++ [2] } = some s' :=
  c4_remove_node_crash
    ({ init 2 with node2pending := [(0, [1, 2]), (7, [])],
                   collection := some [['a'], ['b'], ['c']],
                   pending := [0] } : SchedState)
    0 1 [2] [['a'], ['b'], ['c']] ['b'] (by decide) rfl (by decide)

end SchedState

namespace SchedState

/-- If a non-empty group's worker slice is empty, the dispatch loop
raises (`next` on an empty `cycle`), so `dispatch_group` fails. -/
theorem dispatch_group_none_of_empty_sel (s : SchedState) (key : Ident)
    (g : GroupRec) (hg : alookup key s.dist_groups = some g)
    (hne : g.test_indices ≠ [])
    (hsel : pySlice s.nodes g.group_workers = []) :
    s.dispatch_group key = none := by
  rcases hL : g.test_indices with _ | ⟨a, L⟩
  · exact absurd hL hne
  · simp only [dispatch_group, hg, hsel, hL]
    rw [show (a :: L).length = L.length + 1 from rfl]
    simp [send_loop]

/-- C1 (amended): after the first successful `schedule()` completes its
first group dispatch, every collection index appears exactly once across
the global pending list and the workers' in-flight lists taken together,
and the pending indices of the not-yet-dispatched groups are a
permutation of the global pending list.  Indices of not-yet-dispatched
groups therefore appear both in their group record and in the global
pending list: the three families of the original claim are not mutually
disjoint (see the counterexample). -/
theorem c1_first_dispatch_conservation (s s' : SchedState) (n0 : NodeId)
    (col : List Ident) (restCols : List (NodeId × List Ident))
    (hfirst : s.is_first_time = true)
    (hcolNone : s.collection = none)
    (hdist : s.dist_groups = [])
    (hn2c : s.node2collection = (n0, col) :: restCols)
    (hsame : ∀ p ∈ restCols, p.2 = col)
    (hempty : ∀ p ∈ s.node2pending, p.2 = [])
    (hsched : s.schedule = some s') :
    (s'.pending ++ s'.inflight).Perm (List.range col.length)
    ∧ s'.groupsPending.Perm s'.pending := by
  have hinf : (s.node2pending.map fun p => p.2).flatten = [] :=
    flatten_all_nil s.node2pending hempty
  have hcompl : s.collection_is_completed = true := by
    by_contra hc
    have h2 : s.collection_is_completed = false := by
      rcases h : s.collection_is_completed with _ | _
      · rfl
      · exact absurd h hc
    rw [schedule, h2] at hsched
    simp at hsched
  have hall : (restCols.all fun p => p.2 == col) = true := by
    rw [List.all_eq_true]
    intro p hp
    exact beq_iff_eq.mpr (hsame p hp)
  rw [schedule, hcompl] at hsched
  simp only [Bool.not_true, Bool.false_eq_true, if_false, hcolNone, hn2c,
    hall, List.length_cons] at hsched
  by_cases hcolnil : col = []
  · subst hcolnil
    simp only [List.isEmpty_nil, if_true, Option.some_inj] at hsched
    subst hsched
    constructor
    · rw [List.perm_iff_count]
      intro a
      simp [inflight, hinf]
    · rw [List.perm_iff_count]
      intro a
      simp [groupsPending, hdist]
  · have hcolemp : col.isEmpty = false := by
      rcases h : col with _ | _
      · exact absurd h hcolnil
      · rfl
    simp only [hcolemp, Bool.false_eq_true, if_false, hfirst, if_true,
      nodes] at hsched
    rcases hbg : build_groups (List.map Prod.fst s.node2pending).length col 0 []
      with _ | gs
    · rw [hbg] at hsched
      simp at hsched
    · rw [hbg] at hsched
      simp only at hsched
      obtain ⟨hA, hB, hKn, hNE⟩ := build_groups_spec
        (List.map Prod.fst s.node2pending).length col 0 [] gs hbg (by simp)
        (by simp)
      rcases hgs : gs with _ | ⟨⟨k₁, g₁⟩, gs'⟩
      · exact absurd (hgs ▸ hNE (Or.inr hcolnil)) (by simp)
      · subst hgs
        simp only [List.map_cons] at hsched
        obtain ⟨hgp₁, hgne₁, hgnodup₁, hgbound₁⟩ :=
          hA (k₁, g₁) (List.mem_cons_self _ _)
        dsimp only at hgp₁ hgne₁ hgnodup₁ hgbound₁
        have hg₁ : alookup k₁ (((k₁, g₁) :: gs') : List (Ident × GroupRec))
            = some g₁ := by simp [alookup]
        obtain ⟨s'', hdisp, hsent, hkeys, hdel, hnkeys, hpg, hcol2, hsh, hn2c2,
            hnum, hft, hpc, hic, hgc⟩ :=
          dispatch_group_spec
            { s with node2collection := (n0, col) :: restCols,
                     collection := some col,
                     pending := List.range col.length,
                     dist_groups := (k₁, g₁) :: gs',
                     pending_groups := List.map Prod.fst gs',
                     is_first_time := false }
            k₁ g₁ hg₁ hgp₁ hgnodup₁
            (by
              intro x hx
              dsimp only
              exact List.mem_range.mpr (by have := hgbound₁ x hx; omega))
            (by
              intro hne hS
              have hnone := dispatch_group_none_of_empty_sel
                { s with node2collection := (n0, col) :: restCols,
                         collection := some col,
                         pending := List.range col.length,
                         dist_groups := (k₁, g₁) :: gs',
                         pending_groups := List.map Prod.fst gs',
                         is_first_time := false }
                k₁ g₁ hg₁ hne hS
              exact absurd (hnone.symm.trans hsched) (by simp))
        obtain rfl : s'' = s' := Option.some_inj.mp (hdisp.symm.trans hsched)
        have hinf4 :
            ({ s with node2collection := (n0, col) :: restCols,
                      collection := some col,
                      pending := List.range col.length,
                      dist_groups := (k₁, g₁) :: gs',
                      pending_groups := List.map Prod.fst gs',
                      is_first_time := false } : SchedState).inflight = [] := by
          simp only [inflight]
          exact hinf
        constructor
        · rw [List.perm_iff_count]
          intro a
          have h1 := hpc a
          have h2 := hic a
          have h3 := hB a
          rw [hinf4] at h2
          try dsimp only at h1
          try dsimp only at h2
          try simp only [List.count_nil] at h2
          try simp only [List.range_eq_range'] at h1
          try simp only [List.map_nil, List.flatten_nil, List.count_nil] at h3
          rw [List.count_append, List.range_eq_range']
          omega
        · rw [List.perm_iff_count]
          intro a
          have h1 := hpc a
          have h2 := hgc a
          have h3 := hB a
          simp only [groupsPending]
          try dsimp only at h1
          try dsimp only at h2
          try simp only [List.range_eq_range'] at h1
          try simp only [List.range_eq_range'] at h2
          try simp only [List.map_nil, List.flatten_nil, List.count_nil] at h3
          omega

/-- C1 counterexample: with collection `["a@g_1", "b@h_1"]` and one
worker, the first `schedule()` dispatches group `g_1`; index 1 then
appears BOTH in the global pending list and in group `h_1`'s
`pending_indices`, so it does not appear in exactly one of the three
families of the original claim. -/
theorem c1_counterexample :
    (((((init 1).add_node 0).bind
        (fun st => st.add_node_collection 0
          [['a', '@', 'g', '_', '1'], ['b', '@', 'h', '_', '1']])).bind
        schedule).map
        (fun s' => decide (1 ∈ s'.pending)
          && s'.dist_groups.any fun p => decide (1 ∈ p.2.pending_indices)))
      = some true := by decide

theorem c1_first_dispatch_conservation_witness :
    (([] ++ [0] : List Nat).Perm (List.range 1)
      ∧ ([] : List Nat).Perm ([] : List Nat)) :=
  c1_first_dispatch_conservation
    { init 1 with node2pending := [(0, [])],
                  node2collection := [(0, [['a', '@', 'g', '_', '1']])] }
    { numnodes := 1,
      node2collection := [(0, [['a', '@', 'g', '_', '1']])],
      node2pending := [(0, [0])],
      pending := [],
      collection := some [['a', '@', 'g', '_', '1']],
      dist_groups := [],
      pending_groups := [],
      is_first_time := false,
      do_resched := false,
      shutdown_sent := [],
      sent := [(0, [0])] }
    0 [['a', '@', 'g', '_', '1']] [] rfl rfl rfl rfl (by simp) (by decide)
    (by decide)

theorem c3_check_schedule_dispatch_witness :
    ∃ s', ({ init 2 with
             node2pending := [(10, []), (11, [])],
             pending := [0, 1],
             collection := some [['a'], ['b']],
             dist_groups := [(['g'],
               { tests := [['a'], ['b']], group_workers := 2,
                 test_indices := [0, 1], pending_indices := [0, 1] })],
             pending_groups := [['g']] } : SchedState).check_schedule 10 true
        = some s'
      ∧ s'.sent = [] ++ roundRobinSends (pySlice [10, 11] 2) 0 [0, 1]
      ∧ s'.pending_groups = []
      ∧ alookup ['g'] s'.dist_groups = none
      ∧ (∀ k', k' ≠ (['g'] : Ident) →
          alookup k' s'.dist_groups
            = alookup k'
                ([(['g'],
                  { tests := [['a'], ['b']], group_workers := 2,
                    test_indices := [0, 1],
                    pending_indices := [0, 1] })] : List (Ident × GroupRec))) :=
  (c3_check_schedule_dispatch
    { init 2 with
      node2pending := [(10, []), (11, [])],
      pending := [0, 1],
      collection := some [['a'], ['b']],
      dist_groups := [(['g'],
        { tests := [['a'], ['b']], group_workers := 2,
          test_indices := [0, 1], pending_indices := [0, 1] })],
      pending_groups := [['g']] } 10).1 true ['g'] []
    { tests := [['a'], ['b']], group_workers := 2,
      test_indices := [0, 1], pending_indices := [0, 1] }
    (by decide) (by decide) (by decide) rfl rfl (by decide) rfl (by decide)
    (by decide) (by decide) (by decide)

end SchedState

end XDist
